import Mathlib

/-!
Verification of the GNTP server core of the `gntp_notify` repository.

Shallow embedding conventions:
* Go strings and byte streams are modelled as `List Char` (`GoStr`); the
  protocol is ASCII so a char stands for one byte.
* The connection's `bufio.Reader` is modelled by explicit state passing:
  every reading function takes the remaining stream and returns the
  stream left after the bytes it consumed.
* Go `map[string][]string` (`textproto.MIMEHeader`) is modelled as an
  association list.  Go map iteration order is unspecified; the model
  fixes insertion order, which no proved statement depends on beyond the
  per-key value sequences that Go itself keeps in slices.
* Fallible Go code returning `error` is modelled with `Except GoError`.
-/

namespace Gntp

abbrev GoStr := List Char

/-- Whitespace bytes trimmed by Go `strings.TrimSpace` (the Unicode
space class restricted to the code points that can occur here). -/
def isWSChar (c : Char) : Bool :=
  c.toNat = 9 || c.toNat = 10 || c.toNat = 11 || c.toNat = 12 ||
  c.toNat = 13 || c.toNat = 32 || c.toNat = 133 || c.toNat = 160

/-- Space or tab, the bytes `textproto` skips after the colon of a
header line. -/
def isSpTab (c : Char) : Bool := c = ' ' || c = '\t'

/-- Model of `strings.TrimSpace`: drop whitespace from both ends. -/
def trimWS (l : GoStr) : GoStr :=
  ((l.dropWhile isWSChar).reverse.dropWhile isWSChar).reverse

/-- Split a list at the first occurrence of `sep`; `none` when `sep`
does not occur.  Models `strings.IndexByte`-style splitting. -/
def splitOnFirst (sep : Char) : GoStr → Option (GoStr × GoStr)
  | [] => none
  | c :: rest =>
    if c = sep then some ([], rest)
    else
      match splitOnFirst sep rest with
      | none => none
      | some (a, b) => some (c :: a, b)

/-- ASCII decimal digit test (`'0' <= c && c <= '9'` in the source). -/
def isDigitChar (c : Char) : Bool := 48 ≤ c.toNat && c.toNat ≤ 57

/-- The decimal digit characters, as produced by `strconv.Itoa`. -/
def digitChar (d : Nat) : Char :=
  match d with
  | 0 => '0' | 1 => '1' | 2 => '2' | 3 => '3' | 4 => '4'
  | 5 => '5' | 6 => '6' | 7 => '7' | 8 => '8' | _ => '9'

/-- Fuel-driven decimal printer (most significant digit first). -/
def natDigits (fuel n : Nat) : GoStr :=
  match fuel with
  | 0 => []
  | f + 1 =>
    if n < 10 then [digitChar n]
    else natDigits f (n / 10) ++ [digitChar (n % 10)]

/-- Model of `strconv.Itoa` on the non-negative ints this code uses. -/
def natToDec (n : Nat) : GoStr := natDigits (n + 1) n

/-- One step of the decimal accumulator loop shared by the source's
`atoi` and `strconv.ParseInt`. -/
def decStep (n : Nat) (c : Char) : Nat := n * 10 + (c.toNat - 48)

/-- Decimal value of a digit string. -/
def decVal (l : GoStr) : Nat := l.foldl decStep 0

/-- Model of `strconv.ParseInt(s, 10, 64)` restricted to the unsigned
inputs the protocol uses: all-digit, non-empty strings.  (`ParseInt`
also accepts a sign, but a negative `Length` would make the Go code
panic in `make([]byte, length)`, and no claim touches signed input;
64-bit overflow is likewise out of scope of every claim.) -/
def parseDec (l : GoStr) : Option Nat :=
  if l = [] || !l.all isDigitChar then none else some (decVal l)

/-- Valid MIME header-field-name bytes, as in `net/textproto`
(`isTokenTable`): digits, letters and the RFC 7230 token symbols. -/
def isTokenCharN (n : Nat) : Bool :=
  (48 ≤ n && n ≤ 57) || (65 ≤ n && n ≤ 90) || (97 ≤ n && n ≤ 122) ||
  n = 33 || n = 35 || n = 36 || n = 37 || n = 38 || n = 39 || n = 42 ||
  n = 43 || n = 45 || n = 46 || n = 94 || n = 95 || n = 96 || n = 124 || n = 126

def isTokenChar (c : Char) : Bool := isTokenCharN c.toNat

/-- Go byte-level `toUpper` as used by `CanonicalMIMEHeaderKey`. -/
def upChar (c : Char) : Char :=
  if 97 ≤ c.toNat && c.toNat ≤ 122 then Char.ofNat (c.toNat - 32) else c

/-- Go byte-level `toLower` as used by `CanonicalMIMEHeaderKey`. -/
def downChar (c : Char) : Char :=
  if 65 ≤ c.toNat && c.toNat ≤ 90 then Char.ofNat (c.toNat + 32) else c

/-- The canonicalisation loop of `textproto.CanonicalMIMEHeaderKey`:
uppercase a byte after the start or a hyphen, lowercase otherwise (the
next flag tests the just-written byte against the hyphen, as in Go). -/
def canonChars : Bool → GoStr → GoStr
  | _, [] => []
  | true, c :: rest => upChar c :: canonChars (upChar c = '-') rest
  | false, c :: rest => downChar c :: canonChars (downChar c = '-') rest

/-- Model of `textproto.CanonicalMIMEHeaderKey`: keys containing
invalid header-field bytes are returned unchanged, otherwise the case
is canonicalised. -/
def canonicalKey (s : GoStr) : GoStr :=
  if s.all isTokenChar then canonChars true s else s

/-- A `server.Header` (`map[string][]string`) as an association list
from canonical key to the slice of values for that key. -/
abbrev Header := List (GoStr × List GoStr)

/-- Go map lookup `m[k]`. -/
def lookupA : Header → GoStr → Option (List GoStr)
  | [], _ => none
  | e :: t, k => if e.1 = k then some e.2 else lookupA t k

/-- `textproto.MIMEHeader.Add` minus the canonicalisation step:
append `v` to the slice at `k`, creating the entry if absent. -/
def addAssoc : Header → GoStr → GoStr → Header
  | [], k, v => [(k, [v])]
  | e :: t, k, v =>
    if e.1 = k then (e.1, e.2 ++ [v]) :: t else e :: addAssoc t k v

/-- `textproto.MIMEHeader.Set` minus the canonicalisation step:
replace the slice at `k` with `[v]`. -/
def setAssoc : Header → GoStr → GoStr → Header
  | [], k, v => [(k, [v])]
  | e :: t, k, v =>
    if e.1 = k then (k, [v]) :: t else e :: setAssoc t k v

/-- `Header.Add` from `server/header.go`. -/
def headerAdd (h : Header) (k v : GoStr) : Header := addAssoc h (canonicalKey k) v

/-- `Header.Set` from `server/header.go`. -/
def headerSet (h : Header) (k v : GoStr) : Header := setAssoc h (canonicalKey k) v

/-- `Header.Get` from `server/header.go`: first value and `true`, or
empty string and `false` when the key is unset.  (Go indexes `v[0]`;
`Add`/`Set` never store an empty slice, so `headD` is only a guard.) -/
def headerGet (h : Header) (k : GoStr) : GoStr × Bool :=
  match lookupA h (canonicalKey k) with
  | none => ([], false)
  | some vs => (vs.headD [], true)

/-- The `newlineToSpace` replacer of `server/header.go`: each newline
or carriage-return byte becomes one space. -/
def nlToSpace (c : Char) : Char := if c = '\n' || c = '\r' then ' ' else c

/-- The value transformation inside `Header.Write`: replace CR/LF and
trim the result. -/
def sanitizeValue (v : GoStr) : GoStr := trimWS (v.map nlToSpace)

/-- `Header.Write` from `server/header.go`: one sanitised
`Key: Value\r\n` line per value.  (Go iterates the map in unspecified
order; the model emits entries in association-list order.) -/
def writeHeader (h : Header) : GoStr :=
  h.flatMap (fun e =>
    e.2.flatMap (fun v => e.1 ++ ':' :: ' ' :: sanitizeValue v ++ ['\r', '\n']))

/-- GNTP error value (`GntpError` of `server/errors.go`).  `Code` is an
`int` in Go; every constructor uses a positive literal, so `Nat`. -/
structure GntpError where
  code : Nat
  description : GoStr
deriving DecidableEq

/-- A Go `error` interface value as the server observes it: either a
`GntpError` stored by value, a `*GntpError` pointer (which no code in
the repository ever produces — every constructor and handler returns a
value), or a non-GNTP error such as an I/O condition.  The constructor
records the dynamic type, which is what Go type assertions test. -/
inductive GoError where
  | gntp (e : GntpError)
  | gntpPtr (e : GntpError)
  | eof
  | unexpectedEOF
  | other (msg : GoStr)
deriving DecidableEq

def UnknownRequestTypeError (t : GoStr) : GntpError :=
  ⟨300, "Unknown or unsupported directive type: ".toList ++ t⟩

def InvalidRequestError (info : GoStr) : GntpError :=
  ⟨300, "The request was malformed: ".toList ++ info⟩

def UnknownProtocolError (p : GoStr) : GntpError :=
  ⟨301, "Unknown protocol: ".toList ++ p⟩

/-- GNTP version pair (`server.Version`); both components come out of
the non-negative `atoi` of `server.go`. -/
structure Version where
  major : Nat
  minor : Nat
deriving DecidableEq

def UnknownProtocolVersionError (v : Version) : GntpError :=
  ⟨302, "Unknown protocol version: ".toList ++ natToDec v.major ++ '.' :: natToDec v.minor⟩

def MissingHeaderError (header : GoStr) : GntpError :=
  ⟨303, "Required header ".toList ++ header ++ " missing".toList⟩

def UnknownApplicationError (name : GoStr) : GntpError :=
  ⟨400, "Application ".toList ++ name ++ " not known".toList⟩

def UnknownNotificationError (app name : GoStr) : GntpError :=
  ⟨401, "Notification ".toList ++ name ++ " not known for ".toList ++ app⟩

def InternalServerError : GntpError :=
  ⟨500, "The server encountered an internal error".toList⟩

/-- Binary resource record as `ReadBinaries` builds it: the Go
`Binary.Data` field stays nil there (the payload goes straight into the
`Binaries` store), so only `Ident` and `Length` are populated. -/
structure BinaryRec where
  ident : GoStr
  length : Nat
deriving DecidableEq

/-- `server.Response`. -/
structure Response where
  version : Version
  rtype : GoStr
  headers : List Header
  binaries : List (GoStr × BinaryRec)
deriving DecidableEq

/-- `server.Request` (binaries abstracted like `Response`). -/
structure Request where
  version : Version
  rtype : GoStr
  headers : List Header
  binaries : List (GoStr × BinaryRec)
deriving DecidableEq

/-- `NewResponse` from `server/server.go`. -/
def newResponse (major minor : Nat) : Response :=
  ⟨⟨major, minor⟩, "OK".toList, [([] : Header)], []⟩

/-- `GntpError.Response` from `server/errors.go`. -/
def GntpError.response (g : GntpError) : Response :=
  { version := ⟨1, 0⟩
    rtype := "ERROR".toList
    headers := [headerSet (headerSet [] "Error-Description".toList g.description)
                  "Error-Code".toList (natToDec g.code)]
    binaries := [] }

/-- Line-reading loop of `textproto` restricted to this protocol: scan
to the next LF, strip one trailing CR, and dispatch the line.  The
second argument accumulates the current line in reverse.  Continuation
lines (leading whitespace joining) of `ReadMIMEHeader` are not
modelled; no GNTP frame in any claim emits one. -/
def stripCR (l : GoStr) : GoStr :=
  match l.getLast? with
  | some c => if c = '\r' then l.dropLast else l
  | none => l

def mimeLoop : GoStr → GoStr → Header → Except GoError (Header × GoStr)
  | [], _, _ => .error .eof
  | c :: rest, cur, acc =>
    if c = '\n' then
      let line := stripCR cur.reverse
      if line = [] then .ok (acc, rest)
      else
        match splitOnFirst ':' line with
        | none => .error (.other ("malformed MIME header line".toList))
        | some (k, v) =>
          mimeLoop rest [] (addAssoc acc (canonicalKey k) (v.dropWhile isSpTab))
    else mimeLoop rest (c :: cur) acc

/-- Model of `textproto.Reader.ReadMIMEHeader`: parse `Key: Value`
lines up to a blank line, canonicalising keys and dropping the spaces
after the colon; return the header map and the unread stream. -/
def mimeReadHeader (s : GoStr) : Except GoError (Header × GoStr) := mimeLoop s [] []

/-- The per-line dispatch of `mimeLoop`, factored out so the scanning
lemmas can speak about one completed line at a time. -/
def handleLine (line rest : GoStr) (acc : Header) : Except GoError (Header × GoStr) :=
  if line = [] then .ok (acc, rest)
  else
    match splitOnFirst ':' line with
    | none => .error (.other ("malformed MIME header line".toList))
    | some (k, v) => mimeLoop rest [] (addAssoc acc (canonicalKey k) (v.dropWhile isSpTab))

/-- The GNTP resource-identifier prefix, exactly as the literal in
`ReadBinaries`. -/
def resPfx : GoStr := "x-growl-resource://".toList

/-- The counting loop at the top of `ReadBinaries`: for every header
block, every key, every value, count the values with the (case
sensitive, `strings.HasPrefix`) resource prefix. -/
def countResources (headers : List Header) : Nat :=
  headers.foldl
    (fun n h => h.foldl
      (fun n e => e.2.foldl
        (fun n v => if resPfx.isPrefixOf v then n + 1 else n) n) n) 0

/-- `FileCache.Add` of `binaries.go` as the stream sees it: read
exactly `length` bytes with `io.ReadFull`; if the stream ends first
(`io.EOF` or `io.ErrUnexpectedEOF`), report `io.ErrUnexpectedEOF`.
The on-disk write cannot fail in the model. -/
def fileCacheAdd (length : Nat) (s : GoStr) : Except GoError GoStr :=
  if s.length < length then .error .unexpectedEOF else .ok (s.drop length)

/-- One iteration of the terminator loop at the end of a binary
section: read a byte, skip one CR, then require LF. -/
def readEol (ident : GoStr) (s : GoStr) : Except GoError GoStr :=
  match s with
  | [] => .error .eof
  | c :: rest =>
    if c = '\r' then
      match rest with
      | [] => .error .eof
      | c2 :: rest2 =>
        if c2 = '\n' then .ok rest2
        else .error (.gntp (InvalidRequestError (ident ++ " data not properly terminated".toList)))
    else if c = '\n' then .ok rest
    else .error (.gntp (InvalidRequestError (ident ++ " data not properly terminated".toList)))

/-- Go map assignment `bs[ident] = binary`: overwrite or append. -/
def insertOver : List (GoStr × BinaryRec) → GoStr → BinaryRec → List (GoStr × BinaryRec)
  | [], k, b => [(k, b)]
  | e :: t, k, b => if e.1 = k then (k, b) :: t else e :: insertOver t k b

/-- The per-section loop of `ReadBinaries`: read the `Identifier` /
`Length` mini-header, hand the payload to the binary store, record the
resource, and consume the two line terminators. -/
def readBinLoop : Nat → GoStr → List (GoStr × BinaryRec) → Except GoError (List (GoStr × BinaryRec) × GoStr)
  | 0, s, bs => .ok (bs, s)
  | n + 1, s, bs =>
    match mimeReadHeader s with
    | .error e => .error e
    | .ok (header, s1) =>
      match lookupA header "Identifier".toList with
      | none => .error (.gntp (MissingHeaderError "Binary Identifier".toList))
      | some ivs =>
        let ident := ivs.headD []
        match lookupA header "Length".toList with
        | none => .error (.gntp (MissingHeaderError ("Length for binary ".toList ++ ident)))
        | some lvs =>
          match parseDec (lvs.headD []) with
          | none => .error (.gntp (InvalidRequestError (ident ++ " Length header invalid".toList)))
          | some len =>
            match fileCacheAdd len s1 with
            | .error .unexpectedEOF =>
              .error (.gntp (InvalidRequestError (ident ++ " data incomplete".toList)))
            | .error e => .error e
            | .ok s2 =>
              let bs2 := insertOver bs ident ⟨ident, len⟩
              match readEol ident s2 with
              | .error e => .error e
              | .ok s3 =>
                match readEol ident s3 with
                | .error e => .error e
                | .ok s4 => readBinLoop n s4 bs2

/-- `server.ReadBinaries` wired to the `FileCache` store `main` uses:
count the resource references in the parsed headers, then read that
many binary sections from the stream. -/
def readBinaries (headers : List Header) (s : GoStr) : Except GoError (List (GoStr × BinaryRec) × GoStr) :=
  readBinLoop (countResources headers) s []

/-- The digit loop of `atoi` in `server/server.go`, carried on the
remaining suffix instead of an index (the Go loop only ever moves the
index forward, so the suffix determines it): accumulate digits,
failing as soon as the accumulator exceeds `Big = 1000000`. -/
def atoiList : GoStr → Nat → Option (Nat × GoStr)
  | [], n => some (n, [])
  | c :: rest, n =>
    if isDigitChar c then
      let n2 := n * 10 + (c.toNat - 48)
      if n2 > 1000000 then none else atoiList rest n2
    else some (n, c :: rest)

/-- `atoi(s, i)` of `server/server.go` applied to the suffix of `s`
starting at `i`: fail unless the first byte is a digit, then run the
digit loop. -/
def atoiStart : GoStr → Option (Nat × GoStr)
  | [] => none
  | c :: rest => if isDigitChar c then atoiList (c :: rest) 0 else none

/-- `parseGntpVersion` of `server/server.go`: require the literal
`GNTP/` prefix, a major number, a dot, and a minor number consuming the
rest of the string. -/
def parseGntpVersion (s : GoStr) : Option (Nat × Nat) :=
  if s.take 5 = "GNTP/".toList then
    match atoiStart (s.drop 5) with
    | none => none
    | some (major, rest) =>
      match rest with
      | [] => none
      | c :: rest2 =>
        if c = '.' then
          match atoiStart rest2 with
          | none => none
          | some (minor, rest3) =>
            match rest3 with
            | [] => some (major, minor)
            | _ => none
        else none
  else none

/-- `strings.SplitN(s, " ", 3)`: split around the first two spaces,
the last part keeping the remainder.  Returns one, two or three
parts. -/
def splitN3 (s : GoStr) : List GoStr :=
  match splitOnFirst ' ' s with
  | none => [s]
  | some (a, rest) =>
    match splitOnFirst ' ' rest with
    | none => [a, rest]
    | some (b, rest2) => [a, b, rest2]

/-- The directive-line part of `ServeMux.Parse` (`server/server.go`
lines 240-258): split the line into three tokens, parse the version
token, and require the literal `NONE` security token.  Success hands
`(Version, Type)` to the registered handler dispatch that follows. -/
def muxParseDirective (s : GoStr) : Except GoError (Version × GoStr) :=
  match splitN3 s with
  | [f0, f1, f2] =>
    match parseGntpVersion f0 with
    | none => .error (.gntp (UnknownProtocolError s))
    | some (major, minor) =>
      if f2 = "NONE".toList then .ok (⟨major, minor⟩, f1)
      else .error (.gntp (InvalidRequestError "unsupported encryption".toList))
  | _ => .error (.gntp (UnknownProtocolError s))

/-- Lookup in the `ServeMux` handler map `mux.m`. -/
def muxLookup {H : Type} : List (GoStr × H) → GoStr → Option H
  | [], _ => none
  | e :: rest, k => if e.1 = k then some e.2 else muxLookup rest k

/-- `ServeMux.Register`, with the registered-handler map as an
association list and the `panic` on duplicate registration modelled as
`none`. -/
def muxRegister {H : Type} (m : List (GoStr × H)) (t : GoStr) (h : H) : Option (List (GoStr × H)) :=
  match muxLookup m t with
  | some _ => none
  | none => some (m ++ [(t, h)])

/-- `ServeMux.handler`: the registered handler for `t`, or the builtin
`UnhandledHandler t` (returned as `.inr t`) when none is registered. -/
def muxHandlerFor {H : Type} (m : List (GoStr × H)) (t : GoStr) : H ⊕ GoStr :=
  match muxLookup m t with
  | some h => .inl h
  | none => .inr t

/-- The error-to-response step of `conn.serve` in `server/server.go`:
the parse branch asserts the value type `GntpError`, the respond branch
asserts the pointer type `*GntpError`; any error of a different dynamic
type is logged and replaced by the 500 response. -/
def serveStep (parsed : Except GoError Request)
    (respond : Request → Except GoError Response) : Response :=
  match parsed with
  | .error e =>
    match e with
    | .gntp g => g.response
    | _ => InternalServerError.response
  | .ok req =>
    match respond req with
    | .error e =>
      match e with
      | .gntpPtr g => g.response
      | _ => InternalServerError.response
    | .ok resp => resp

/-- A registered notification type, restricted to the fields the
verified claims observe (icon download, stickiness, priority and
coalescing handling are side effects outside every claim). -/
structure NoteRec where
  name : GoStr
  title : GoStr
deriving DecidableEq

/-- A registered application (`Application` of `application.go`),
restricted to its name and registered notification map. -/
structure AppRec where
  name : GoStr
  notifications : List (GoStr × NoteRec)
deriving DecidableEq

/-- `Applications.Get`: Go map lookup by name (nil for absent). -/
def appsGet (apps : List (GoStr × AppRec)) (name : GoStr) : Option AppRec :=
  match apps with
  | [] => none
  | e :: t => if e.1 = name then some e.2 else appsGet t name

/-- Lookup in an `Application.Notifications` map (`app.Notifications[name]`). -/
def notesGet (notes : List (GoStr × NoteRec)) (name : GoStr) : Option NoteRec :=
  match notes with
  | [] => none
  | e :: t => if e.1 = name then some e.2 else notesGet t name

/-- The error cascade of `buildNotification` in `handlers.go`:
missing `Application-Name` header, unknown application, missing
`Notification-Name` / `Notification-Title` headers, then unknown
notification; on success the notification record.  Population of the
remaining `Notification` fields is omitted (no claim observes it). -/
def buildNotification (apps : List (GoStr × AppRec)) (header : Header) : Except GntpError NoteRec :=
  match headerGet header "Application-Name".toList with
  | (_, false) => .error (MissingHeaderError "Application-Name".toList)
  | (appName, true) =>
    match appsGet apps appName with
    | none => .error (UnknownApplicationError appName)
    | some app =>
      match headerGet header "Notification-Name".toList with
      | (_, false) => .error (MissingHeaderError "Notification-Name".toList)
      | (name, true) =>
        match headerGet header "Notification-Title".toList with
        | (_, false) => .error (MissingHeaderError "Notification-Title".toList)
        | (title, true) =>
          match notesGet app.notifications name with
          | none => .error (UnknownNotificationError appName name)
          | some _ => .ok ⟨name, title⟩

/-- `NotifyHandler.Respond` of `handlers.go`: version gate, build the
notification, and on error return the `GntpError` by value inside the
`error` interface (`GoError.gntp`), exactly as the Go handler does. -/
def notifyRespond (apps : List (GoStr × AppRec)) (req : Request) : Except GoError Response :=
  if req.version.major ≠ 1 ∧ req.version.minor ≠ 0 then
    .error (.gntp (UnknownProtocolVersionError req.version))
  else
    match buildNotification apps (req.headers.headD []) with
    | .error e => .error (.gntp e)
    | .ok _ =>
      .ok { newResponse 1 0 with
              headers := [headerSet [] "Response-Action".toList "NOTIFY".toList] }

/-- Encoder for the `Identifier`/`Length` mini-header of a binary
section, used to state theorems about `ReadBinaries` on well-formed
wire input. -/
def encodeMini (ident : GoStr) (n : Nat) : GoStr :=
  "Identifier: ".toList ++ ident ++ '\r' :: '\n' ::
  "Length: ".toList ++ natToDec n ++ '\r' :: '\n' :: '\r' :: '\n' :: []

/-- Encoder for one complete binary section: mini-header, payload of
the declared length, and the double line terminator. -/
def encodeSection (sec : GoStr × GoStr) : GoStr :=
  encodeMini sec.1 sec.2.length ++ sec.2 ++ '\r' :: '\n' :: '\r' :: '\n' :: []

def encodeSections (sections : List (GoStr × GoStr)) : GoStr :=
  sections.flatMap encodeSection

/-- Identifiers that survive the wire round trip: no line-break bytes
and no leading space or tab (the mini-header parser strips those). -/
def identOkB (ident : GoStr) : Bool :=
  !(ident.any (fun c => c = '\n' || c = '\r')) &&
  (match ident with
   | [] => true
   | c :: _ => !isSpTab c)

/-- The resource map `ReadBinaries` builds for a list of sections. -/
def binMapOf (sections : List (GoStr × GoStr)) : List (GoStr × BinaryRec) :=
  sections.foldl (fun m sec => insertOver m sec.1 ⟨sec.1, sec.2.length⟩) []

/-- Modelled from the spec: the case-insensitive prefix test claim C2
attributes to the Binary Resource Reader (the prefix itself is
lowercase, the value is lowercased byte-wise before comparison). -/
def ciStarts (p v : GoStr) : Bool := p.isPrefixOf (v.map downChar)

/-- A NOTIFY request naming the unregistered application `Baz` (the
scenario of spec section 8). -/
def bazRequest : Request :=
  { version := ⟨1, 0⟩
    rtype := "NOTIFY".toList
    headers := [[("Application-Name".toList, ["Baz".toList]),
                 ("Notification-Name".toList, ["Bar".toList]),
                 ("Notification-Title".toList, ["T".toList])]]
    binaries := [] }

/-- A header block whose only value carries the resource prefix in
mixed case. -/
def cxHeaders : List Header :=
  [[("Notification-Icon".toList, ["X-Growl-Resource://abc".toList])]]

/-- A stream holding one well-formed binary section for identifier
`abc` with two payload bytes. -/
def cxStream : GoStr := encodeSection ("abc".toList, "AB".toList)

/-- The header pipeline of claim C5 on a batch of `Add` calls. -/
def buildHeader (adds : List (GoStr × GoStr)) : Header :=
  adds.foldl (fun h p => headerAdd h p.1 p.2) []

/-- The value sequence stored for a key (empty when absent). -/
def valsOf (h : Header) (k : GoStr) : List GoStr := (lookupA h k).getD []

/-- Wire-safe `Add` arguments for the round trip of claim C5: keys are
non-empty header tokens; values carry no CR/LF byte and no leading or
trailing whitespace. -/
def keyOkB (k : GoStr) : Bool := !k.isEmpty && k.all isTokenChar

def valOkB (v : GoStr) : Bool :=
  !v.any (fun c => c = '\r' || c = '\n') &&
  (match v with
   | [] => true
   | c :: _ => !isWSChar c) &&
  (match v.getLast? with
   | some c => !isWSChar c
   | none => true)

/-- A batch of `Add` calls with a repeated (differently cased) key,
exercising claim C5 on concrete input. -/
def addsEx : List (GoStr × GoStr) :=
  [("X-Key".toList, "v1".toList), ("x-key".toList, "v2".toList),
   ("Other".toList, "w".toList)]

/-- The single header block `GntpError.Response` fills in. -/
def errHeader (g : GntpError) : Header :=
  headerSet (headerSet [] "Error-Description".toList g.description)
    "Error-Code".toList (natToDec g.code)

/-!  Theorems.  -/

theorem errHeader_eq (g : GntpError) :
    errHeader g = [("Error-Description".toList, [g.description]),
                   ("Error-Code".toList, [natToDec g.code])] := rfl

/-- Claim C7: every named error constructor yields its table code, and
for every `GntpError` the `Response()` method builds a response whose
single header block carries the code under `Error-Code` and the
description under `Error-Description`. -/
theorem gntp_c7 :
    (∀ t, (UnknownRequestTypeError t).code = 300) ∧
    (∀ s, (InvalidRequestError s).code = 300) ∧
    (∀ p, (UnknownProtocolError p).code = 301) ∧
    (∀ v, (UnknownProtocolVersionError v).code = 302) ∧
    (∀ hd, (MissingHeaderError hd).code = 303) ∧
    (∀ nm, (UnknownApplicationError nm).code = 400) ∧
    (∀ a n, (UnknownNotificationError a n).code = 401) ∧
    InternalServerError.code = 500 ∧
    (∀ g : GntpError,
      g.response.headers = [errHeader g] ∧
      headerGet (errHeader g) "Error-Code".toList = (natToDec g.code, true) ∧
      headerGet (errHeader g) "Error-Description".toList = (g.description, true)) := by
  refine ⟨fun _ => rfl, fun _ => rfl, fun _ => rfl, fun _ => rfl, fun _ => rfl,
    fun _ => rfl, fun _ _ => rfl, rfl, fun g => ⟨rfl, rfl, rfl⟩⟩

theorem mem_trimWS {c : Char} {l : GoStr} (h : c ∈ trimWS l) : c ∈ l := by
  unfold trimWS at h
  rw [List.mem_reverse] at h
  have h2 := (List.dropWhile_sublist _).mem h
  rw [List.mem_reverse] at h2
  exact (List.dropWhile_sublist _).mem h2

/-- Claim C8: `Header.Write` emits, for every stored value, a line
whose value part is the original value with each CR/LF byte replaced
by a space and the result trimmed, so the emitted value contains no
embedded CR or LF byte. -/
theorem gntp_c8 :
    (∀ h : Header, writeHeader h =
      h.flatMap (fun e => e.2.flatMap
        (fun v => e.1 ++ ':' :: ' ' :: trimWS (v.map nlToSpace) ++ ['\r', '\n']))) ∧
    (∀ v : GoStr, (sanitizeValue v).all (fun c => !(c = '\r' || c = '\n')) = true) := by
  refine ⟨fun _ => rfl, fun v => ?_⟩
  rw [List.all_eq_true]
  intro c hc
  have hmem : c ∈ v.map nlToSpace := mem_trimWS hc
  rw [List.mem_map] at hmem
  obtain ⟨a, _, ha⟩ := hmem
  subst ha
  unfold nlToSpace
  by_cases h : a = '\n' ∨ a = '\r'
  · have : (a = '\n' || a = '\r') = true := by
      rcases h with h | h <;> simp [h]
    simp [this]
  · push_neg at h
    have : (a = '\n' || a = '\r') = false := by
      simp [h.1, h.2]
    simp [this, h.1, h.2]

/-- Claim C1 (code bug): the NOTIFY handler returns the taxonomy error
`UnknownApplicationError "Baz"` (code 400) as a `GntpError` value, but
`conn.serve` tests the respond-path error with a `*GntpError` pointer
type assertion, so the wire response is the generic 500 Internal Server
Error — and the same happens for every value-typed taxonomy error a
handler Respond returns. -/
theorem gntp_c1_bug :
    notifyRespond [] bazRequest = .error (.gntp (UnknownApplicationError "Baz".toList)) ∧
    (UnknownApplicationError "Baz".toList).code = 400 ∧
    serveStep (.ok bazRequest) (notifyRespond []) = InternalServerError.response ∧
    headerGet ((serveStep (.ok bazRequest) (notifyRespond [])).headers.headD [])
      "Error-Code".toList = ("500".toList, true) ∧
    (∀ (g : GntpError) (req : Request),
      serveStep (.ok req) (fun _ => .error (.gntp g)) = InternalServerError.response) := by
  exact ⟨rfl, rfl, rfl, rfl, fun _ _ => rfl⟩

/-- Claim C9: when the parsed headers reference no resource, the
binary reader consumes nothing, reads no section, and returns the
empty map without error, whatever the trailing stream holds. -/
theorem gntp_c9 (headers : List Header) (s : GoStr)
    (h : countResources headers = 0) :
    readBinaries headers s = .ok ([], s) := by
  unfold readBinaries
  rw [h]
  rfl

theorem gntp_c9_w :
    countResources [[("Notification-Icon".toList, ["http://example.com/icon.png".toList])]] = 0 ∧
    readBinaries [[("Notification-Icon".toList, ["http://example.com/icon.png".toList])]]
      "trailing-bytes".toList = .ok ([], "trailing-bytes".toList) :=
  ⟨by decide, gntp_c9 _ _ (by decide)⟩

theorem muxLookup_append {H : Type} (m : List (GoStr × H)) (t k : GoStr) (h : H) :
    muxLookup (m ++ [(t, h)]) k =
      match muxLookup m k with
      | some v => some v
      | none => if t = k then some h else none := by
  induction m with
  | nil => simp [muxLookup]
  | cons e rest ih =>
    by_cases he : e.1 = k
    · simp [muxLookup, he]
    · simp [muxLookup, he, ih]

/-- Claim C6: `Register` fails fatally (panics) exactly when the type
is already registered, and two registrations of distinct types leave
each handler independently retrievable for dispatch. -/
theorem gntp_c6 :
    (∀ (H : Type) (m : List (GoStr × H)) (t : GoStr) (h : H),
       muxRegister m t h = none ↔ (muxLookup m t).isSome = true) ∧
    (∀ (H : Type) (m : List (GoStr × H)) (t1 t2 : GoStr) (h1 h2 : H)
       (m1 m2 : List (GoStr × H)),
       t1 ≠ t2 →
       muxRegister m t1 h1 = some m1 →
       muxRegister m1 t2 h2 = some m2 →
       muxHandlerFor m2 t1 = .inl h1 ∧ muxHandlerFor m2 t2 = .inl h2) := by
  constructor
  · intro H m t h
    unfold muxRegister
    cases hm : muxLookup m t <;> simp [hm]
  · intro H m t1 t2 h1 h2 m1 m2 hne hr1 hr2
    unfold muxRegister at hr1 hr2
    cases hm1 : muxLookup m t1 with
    | some v => rw [hm1] at hr1; exact absurd hr1 (by simp)
    | none =>
    rw [hm1] at hr1
    cases hm2 : muxLookup m1 t2 with
    | some v => rw [hm2] at hr2; exact absurd hr2 (by simp)
    | none =>
    rw [hm2] at hr2
    obtain rfl : m ++ [(t1, h1)] = m1 := by injection hr1
    obtain rfl : (m ++ [(t1, h1)]) ++ [(t2, h2)] = m2 := by injection hr2
    have l1 : muxLookup (m ++ [(t1, h1)]) t1 = some h1 := by
      rw [muxLookup_append, hm1]
      simp
    have lm : muxLookup m t2 = none := by
      rw [muxLookup_append] at hm2
      cases hm : muxLookup m t2
      · rfl
      · rw [hm] at hm2
        exact absurd hm2 (by simp)
    constructor
    · unfold muxHandlerFor
      rw [muxLookup_append, l1]
    · unfold muxHandlerFor
      rw [muxLookup_append, muxLookup_append, lm, if_neg hne, if_pos rfl]

theorem gntp_c6_w :
    ("REGISTER".toList : GoStr) ≠ "NOTIFY".toList ∧
    muxRegister ([] : List (GoStr × Nat)) "REGISTER".toList 1 = some [("REGISTER".toList, 1)] ∧
    muxRegister [("REGISTER".toList, 1)] "NOTIFY".toList 2 =
      some [("REGISTER".toList, 1), ("NOTIFY".toList, 2)] ∧
    muxRegister [("REGISTER".toList, 1), ("NOTIFY".toList, 2)] "NOTIFY".toList 3 = none ∧
    muxHandlerFor [("REGISTER".toList, 1), ("NOTIFY".toList, 2)] "REGISTER".toList = .inl 1 ∧
    muxHandlerFor [("REGISTER".toList, 1), ("NOTIFY".toList, 2)] "NOTIFY".toList = .inl 2 := by
  refine ⟨by decide, rfl, rfl, ?_, ?_⟩
  · exact (gntp_c6.1 Nat [("REGISTER".toList, 1), ("NOTIFY".toList, 2)]
      "NOTIFY".toList 3).mpr (by decide)
  · exact gntp_c6.2 Nat [] "REGISTER".toList "NOTIFY".toList 1 2 _ _
      (by decide) rfl rfl

theorem muxParseDirective_short (s : GoStr) (h : (splitN3 s).length < 3) :
    muxParseDirective s = .error (.gntp (UnknownProtocolError s)) := by
  unfold muxParseDirective
  rcases hs : splitN3 s with _ | ⟨a, _ | ⟨b, _ | ⟨c, rest⟩⟩⟩
  · rfl
  · rfl
  · rfl
  · rw [hs] at h
    simp only [List.length_cons] at h
    omega

theorem muxParseDirective_badVersion (s v t sec : GoStr)
    (hs : splitN3 s = [v, t, sec]) (hv : parseGntpVersion v = none) :
    muxParseDirective s = .error (.gntp (UnknownProtocolError s)) := by
  unfold muxParseDirective
  rw [hs]
  dsimp only
  rw [hv]

theorem muxParseDirective_badSecurity (s v t sec : GoStr) (mj mn : Nat)
    (hs : splitN3 s = [v, t, sec]) (hv : parseGntpVersion v = some (mj, mn))
    (hsec : sec ≠ "NONE".toList) :
    muxParseDirective s = .error (.gntp (InvalidRequestError "unsupported encryption".toList)) := by
  unfold muxParseDirective
  rw [hs]
  dsimp only
  rw [hv]
  dsimp only
  rw [if_neg hsec]

/-- Claim C3: the well-formed directive `GNTP/1.0 NOTIFY NONE` yields
version 1.0 and type NOTIFY; a line without three space-separated
tokens, or whose first token fails `parseGntpVersion`, fails with the
code-301 unknown-protocol error carrying the raw line; a third token
other than the literal `NONE` fails with the unsupported-encryption
invalid-request error. -/
theorem gntp_c3 :
    (muxParseDirective "GNTP/1.0 NOTIFY NONE".toList = .ok (⟨1, 0⟩, "NOTIFY".toList)) ∧
    (∀ s : GoStr, (splitN3 s).length < 3 →
      muxParseDirective s = .error (.gntp (UnknownProtocolError s)) ∧
      (UnknownProtocolError s).code = 301) ∧
    (∀ s v t sec : GoStr, splitN3 s = [v, t, sec] → parseGntpVersion v = none →
      muxParseDirective s = .error (.gntp (UnknownProtocolError s)) ∧
      (UnknownProtocolError s).code = 301) ∧
    (∀ (s v t sec : GoStr) (mj mn : Nat), splitN3 s = [v, t, sec] →
      parseGntpVersion v = some (mj, mn) → sec ≠ "NONE".toList →
      muxParseDirective s =
        .error (.gntp (InvalidRequestError "unsupported encryption".toList))) := by
  refine ⟨rfl, ?_, ?_, ?_⟩
  · intro s h
    exact ⟨muxParseDirective_short s h, rfl⟩
  · intro s v t sec hs hv
    exact ⟨muxParseDirective_badVersion s v t sec hs hv, rfl⟩
  · intro s v t sec mj mn hs hv hsec
    exact muxParseDirective_badSecurity s v t sec mj mn hs hv hsec

theorem gntp_c3_w :
    muxParseDirective "GNTP/1.0".toList =
      .error (.gntp (UnknownProtocolError "GNTP/1.0".toList)) ∧
    muxParseDirective "HTTP/1.0 GET NONE".toList =
      .error (.gntp (UnknownProtocolError "HTTP/1.0 GET NONE".toList)) ∧
    muxParseDirective "GNTP/1.0 NOTIFY AES".toList =
      .error (.gntp (InvalidRequestError "unsupported encryption".toList)) :=
  ⟨(gntp_c3.2.1 "GNTP/1.0".toList (by decide)).1,
   (gntp_c3.2.2.1 "HTTP/1.0 GET NONE".toList "HTTP/1.0".toList "GET".toList "NONE".toList
     (by decide) (by decide)).1,
   gntp_c3.2.2.2 "GNTP/1.0 NOTIFY AES".toList "GNTP/1.0".toList "NOTIFY".toList "AES".toList
     1 0 (by decide) (by decide) (by decide)⟩

theorem decStep_ge (n : Nat) (c : Char) : n ≤ decStep n c := by
  unfold decStep
  omega

theorem foldl_decStep_ge (ds : GoStr) (n : Nat) : n ≤ ds.foldl decStep n := by
  induction ds generalizing n with
  | nil => exact Nat.le_refl n
  | cons c t ih => exact Nat.le_trans (decStep_ge n c) (ih (decStep n c))

theorem atoiList_digits (ds : GoStr) (tail : GoStr) (n : Nat)
    (hds : ∀ c ∈ ds, isDigitChar c = true) (hn : n ≤ 1000000)
    (htail : ∀ c, tail.head? = some c → isDigitChar c = false) :
    atoiList (ds ++ tail) n =
      if ds.foldl decStep n ≤ 1000000 then some (ds.foldl decStep n, tail) else none := by
  induction ds generalizing n with
  | nil =>
    cases tail with
    | nil => simp [atoiList, hn]
    | cons c t =>
      have hc : isDigitChar c = false := htail c rfl
      simp [atoiList, hc, hn]
  | cons d ds ih =>
    have hd : isDigitChar d = true := hds d (List.mem_cons_self d ds)
    show atoiList (d :: (ds ++ tail)) n = _
    unfold atoiList
    rw [hd]
    simp only [if_true]
    have hstep : n * 10 + (d.toNat - 48) = decStep n d := rfl
    by_cases hbig : decStep n d > 1000000
    · rw [hstep, if_pos hbig]
      have : 1000000 < (d :: ds).foldl decStep n :=
        Nat.lt_of_lt_of_le hbig (foldl_decStep_ge ds (decStep n d))
      rw [List.foldl_cons] at this ⊢
      rw [if_neg (by omega)]
    · rw [hstep, if_neg hbig]
      rw [List.foldl_cons]
      exact ih (decStep n d) (fun c hc => hds c (List.mem_cons_of_mem d hc)) (by omega)

theorem atoiStart_digits (ds : GoStr) (tail : GoStr)
    (hne : ds ≠ []) (hds : ∀ c ∈ ds, isDigitChar c = true)
    (htail : ∀ c, tail.head? = some c → isDigitChar c = false) :
    atoiStart (ds ++ tail) =
      if decVal ds ≤ 1000000 then some (decVal ds, tail) else none := by
  cases ds with
  | nil => exact absurd rfl hne
  | cons d t =>
    have hd : isDigitChar d = true := hds d (List.mem_cons_self d t)
    show atoiStart (d :: (t ++ tail)) = _
    unfold atoiStart
    dsimp only
    rw [if_pos hd]
    have := atoiList_digits (d :: t) tail 0 hds (by omega) htail
    rw [List.cons_append] at this
    exact this

theorem parseGntpVersion_digits (d1 d2 : GoStr) (h1 : d1 ≠ []) (h2 : d2 ≠ [])
    (hd1 : ∀ c ∈ d1, isDigitChar c = true) (hd2 : ∀ c ∈ d2, isDigitChar c = true) :
    parseGntpVersion ("GNTP/".toList ++ (d1 ++ '.' :: d2)) =
      if decVal d1 ≤ 1000000 ∧ decVal d2 ≤ 1000000 then some (decVal d1, decVal d2)
      else none := by
  unfold parseGntpVersion
  have htake : ("GNTP/".toList ++ (d1 ++ '.' :: d2)).take 5 = "GNTP/".toList := by
    rw [show (5 : Nat) = ("GNTP/".toList).length from rfl]
    exact List.take_left _ _
  have hdrop : ("GNTP/".toList ++ (d1 ++ '.' :: d2)).drop 5 = d1 ++ '.' :: d2 := by
    rw [show (5 : Nat) = ("GNTP/".toList).length from rfl]
    exact List.drop_left _ _
  rw [htake, hdrop, if_pos rfl]
  rw [atoiStart_digits d1 ('.' :: d2) h1 hd1
    (fun c hc => by
      rw [List.head?_cons, Option.some_inj] at hc
      rw [← hc]
      decide)]
  have ha2 := atoiStart_digits d2 [] h2 hd2 (fun c hc => by cases hc)
  rw [List.append_nil] at ha2
  by_cases hc1 : decVal d1 ≤ 1000000
  · rw [if_pos hc1]
    dsimp only
    rw [if_pos rfl, ha2]
    by_cases hc2 : decVal d2 ≤ 1000000
    · rw [if_pos hc2, if_pos ⟨hc1, hc2⟩]
    · rw [if_neg hc2, if_neg (by exact fun h => hc2 h.2)]
  · rw [if_neg hc1, if_neg (by exact fun h => hc1 h.1)]

theorem splitOnFirst_append (sep : Char) (a r : GoStr) (ha : ∀ c ∈ a, c ≠ sep) :
    splitOnFirst sep (a ++ sep :: r) = some (a, r) := by
  induction a with
  | nil => simp [splitOnFirst]
  | cons c t ih =>
    have hc : c ≠ sep := ha c (List.mem_cons_self c t)
    show splitOnFirst sep (c :: (t ++ sep :: r)) = _
    unfold splitOnFirst
    rw [if_neg hc, ih (fun x hx => ha x (List.mem_cons_of_mem c hx))]

theorem digit_ne_space {c : Char} (h : isDigitChar c = true) : c ≠ ' ' := by
  intro he
  subst he
  exact absurd h (by decide)

/-- Claim C10: a version component whose decimal value exceeds
1,000,000 makes `parseGntpVersion` fail (the `atoi` `Big` guard), so
`ServeMux.Parse` rejects the directive line with the code-301
unknown-protocol error; components of value at most 1,000,000 are
accepted. -/
theorem gntp_c10 (d1 d2 : GoStr) (h1 : d1 ≠ []) (h2 : d2 ≠ [])
    (hd1 : d1.all isDigitChar = true) (hd2 : d2.all isDigitChar = true) :
    (parseGntpVersion ("GNTP/".toList ++ (d1 ++ '.' :: d2)) =
      if decVal d1 ≤ 1000000 ∧ decVal d2 ≤ 1000000 then some (decVal d1, decVal d2)
      else none) ∧
    (1000000 < decVal d1 ∨ 1000000 < decVal d2 →
      muxParseDirective (("GNTP/".toList ++ (d1 ++ '.' :: d2)) ++ ' ' :: "NOTIFY NONE".toList) =
        .error (.gntp (UnknownProtocolError
          (("GNTP/".toList ++ (d1 ++ '.' :: d2)) ++ ' ' :: "NOTIFY NONE".toList)))) := by
  rw [List.all_eq_true] at hd1 hd2
  have hmain := parseGntpVersion_digits d1 d2 h1 h2 hd1 hd2
  refine ⟨hmain, fun hbig => ?_⟩
  have hpre : ∀ c ∈ ("GNTP/".toList : GoStr), c ≠ ' ' := by decide
  have hnosp : ∀ c ∈ "GNTP/".toList ++ (d1 ++ '.' :: d2), c ≠ ' ' := by
    intro c hc
    rw [List.mem_append] at hc
    rcases hc with hc | hc
    · exact hpre c hc
    · rw [List.mem_append] at hc
      rcases hc with hc | hc
      · exact digit_ne_space (hd1 c hc)
      · rcases List.mem_cons.mp hc with rfl | hc
        · decide
        · exact digit_ne_space (hd2 c hc)
  have hsplit : splitN3 (("GNTP/".toList ++ (d1 ++ '.' :: d2)) ++ ' ' :: "NOTIFY NONE".toList) =
      [("GNTP/".toList ++ (d1 ++ '.' :: d2)), "NOTIFY".toList, "NONE".toList] := by
    unfold splitN3
    rw [splitOnFirst_append ' ' _ _ hnosp]
    dsimp only
    rw [show splitOnFirst ' ' ("NOTIFY NONE".toList) = some ("NOTIFY".toList, "NONE".toList)
      from by decide]
  have hnone : parseGntpVersion ("GNTP/".toList ++ (d1 ++ '.' :: d2)) = none := by
    rw [hmain, if_neg (by omega)]
  exact muxParseDirective_badVersion _ _ _ _ hsplit hnone

theorem gntp_c10_w :
    parseGntpVersion "GNTP/1000001.0".toList = none ∧
    parseGntpVersion "GNTP/1000000.17".toList = some (1000000, 17) ∧
    muxParseDirective "GNTP/1000001.0 NOTIFY NONE".toList =
      .error (.gntp (UnknownProtocolError "GNTP/1000001.0 NOTIFY NONE".toList)) := by
  have hb := gntp_c10 ("1000001".toList) ("0".toList) (by decide) (by decide)
    (by decide) (by decide)
  have hg := gntp_c10 ("1000000".toList) ("17".toList) (by decide) (by decide)
    (by decide) (by decide)
  refine ⟨?_, ?_, ?_⟩
  · rw [show ("GNTP/1000001.0".toList : GoStr) =
      "GNTP/".toList ++ ("1000001".toList ++ '.' :: "0".toList) from by decide]
    rw [hb.1]
    decide
  · rw [show ("GNTP/1000000.17".toList : GoStr) =
      "GNTP/".toList ++ ("1000000".toList ++ '.' :: "17".toList) from by decide]
    rw [hg.1]
    decide
  · have hz := hb.2 (by left; decide)
    rw [show ("GNTP/1000001.0 NOTIFY NONE".toList : GoStr) =
      ("GNTP/".toList ++ ("1000001".toList ++ '.' :: "0".toList)) ++ ' ' :: "NOTIFY NONE".toList
      from by decide]
    exact hz

theorem digitChar_isDigit {d : Nat} (h : d < 10) : isDigitChar (digitChar d) = true := by
  interval_cases d <;> decide

theorem digitChar_val {d : Nat} (h : d < 10) : (digitChar d).toNat - 48 = d := by
  interval_cases d <;> decide

theorem natDigits_digits (fuel n : Nat) : ∀ c ∈ natDigits fuel n, isDigitChar c = true := by
  induction fuel generalizing n with
  | zero => intro c hc; cases hc
  | succ f ih =>
    intro c hc
    unfold natDigits at hc
    by_cases hn : n < 10
    · rw [if_pos hn] at hc
      rcases List.mem_singleton.mp hc with rfl
      exact digitChar_isDigit hn
    · rw [if_neg hn] at hc
      rcases List.mem_append.mp hc with hc | hc
      · exact ih (n / 10) c hc
      · rcases List.mem_singleton.mp hc with rfl
        exact digitChar_isDigit (Nat.mod_lt n (by omega))

theorem natDigits_ne_nil (f n : Nat) : natDigits (f + 1) n ≠ [] := by
  unfold natDigits
  by_cases hn : n < 10
  · rw [if_pos hn]
    exact List.cons_ne_nil _ _
  · rw [if_neg hn]
    intro h
    rcases List.append_eq_nil.mp h with ⟨_, h2⟩
    exact List.cons_ne_nil _ _ h2

theorem decVal_natDigits (fuel n : Nat) (h : n < fuel) :
    decVal (natDigits fuel n) = n := by
  induction fuel generalizing n with
  | zero => omega
  | succ f ih =>
    unfold natDigits
    by_cases hn : n < 10
    · rw [if_pos hn]
      show decStep 0 (digitChar n) = n
      unfold decStep
      rw [digitChar_val hn]
      omega
    · rw [if_neg hn]
      unfold decVal
      rw [List.foldl_append]
      have hv : (natDigits f (n / 10)).foldl decStep 0 = n / 10 := ih (n / 10) (by omega)
      rw [show (natDigits f (n / 10)).foldl decStep 0 = decVal (natDigits f (n / 10)) from rfl,
        ih (n / 10) (by omega)]
      show decStep (n / 10) (digitChar (n % 10)) = n
      unfold decStep
      rw [digitChar_val (Nat.mod_lt n (by omega))]
      omega

theorem natToDec_digits (n : Nat) : ∀ c ∈ natToDec n, isDigitChar c = true :=
  natDigits_digits (n + 1) n

theorem natToDec_ne_nil (n : Nat) : natToDec n ≠ [] := natDigits_ne_nil n n

theorem parseDec_natToDec (n : Nat) : parseDec (natToDec n) = some n := by
  unfold parseDec
  have h2 : (natToDec n).all isDigitChar = true :=
    List.all_eq_true.mpr (natToDec_digits n)
  rw [h2]
  rw [if_neg (by simp [natToDec_ne_nil n])]
  rw [show natToDec n = natDigits (n + 1) n from rfl,
    decVal_natDigits (n + 1) n (Nat.lt_succ_self n)]

theorem mimeLoop_scan (pre : GoStr) :
    ∀ (cur tail : GoStr) (acc : Header), (∀ c ∈ pre, c ≠ '\n') →
    mimeLoop (pre ++ '\n' :: tail) cur acc =
      handleLine (stripCR (cur.reverse ++ pre)) tail acc := by
  induction pre with
  | nil =>
    intro cur tail acc _
    show mimeLoop ('\n' :: tail) cur acc = _
    unfold mimeLoop
    rw [if_pos rfl, List.append_nil]
    rfl
  | cons c pre ih =>
    intro cur tail acc hpre
    have hc : c ≠ '\n' := hpre c (List.mem_cons_self c pre)
    show mimeLoop (c :: (pre ++ '\n' :: tail)) cur acc = _
    unfold mimeLoop
    rw [if_neg hc, ih (c :: cur) tail acc (fun x hx => hpre x (List.mem_cons_of_mem c hx))]
    rw [List.reverse_cons, List.append_assoc]
    rfl

theorem stripCR_concat (a : GoStr) : stripCR (a ++ ['\r']) = a := by
  unfold stripCR
  rw [List.getLast?_concat, List.dropLast_concat]
  rfl

theorem dropWhile_head_not (p : Char → Bool) (l : GoStr)
    (h : ∀ c, l.head? = some c → p c = false) : l.dropWhile p = l := by
  cases l with
  | nil => rfl
  | cons c t =>
    rw [List.dropWhile_cons, h c rfl]
    simp

theorem mimeLoop_line (k val tail : GoStr) (acc : Header)
    (hk : ':' ∉ k) (hkn : '\n' ∉ k)
    (hv : '\n' ∉ val ∧ '\r' ∉ val ∧ (∀ c, val.head? = some c → isSpTab c = false)) :
    mimeLoop (k ++ ':' :: ' ' :: (val ++ '\r' :: '\n' :: tail)) [] acc =
      mimeLoop tail [] (addAssoc acc (canonicalKey k) val) := by
  have hshape : k ++ ':' :: ' ' :: (val ++ '\r' :: '\n' :: tail) =
      (k ++ ':' :: ' ' :: (val ++ ['\r'])) ++ '\n' :: tail := by
    simp [List.append_assoc]
  rw [hshape, mimeLoop_scan _ [] tail acc ?hnl]
  case hnl =>
    intro c hc
    rcases List.mem_append.mp hc with hc | hc
    · intro he
      subst he
      exact hkn hc
    · rcases List.mem_cons.mp hc with rfl | hc
      · decide
      · rcases List.mem_cons.mp hc with rfl | hc
        · decide
        · rcases List.mem_append.mp hc with hc | hc
          · intro he
            subst he
            exact hv.1 hc
          · rcases List.mem_singleton.mp hc with rfl
            decide
  rw [List.reverse_nil, List.nil_append]
  have hshape2 : k ++ ':' :: ' ' :: (val ++ ['\r']) =
      (k ++ ':' :: ' ' :: val) ++ ['\r'] := by
    simp [List.append_assoc]
  rw [hshape2, stripCR_concat]
  unfold handleLine
  have hne : (k ++ ':' :: ' ' :: val) ≠ [] := by
    intro h
    rcases List.append_eq_nil.mp h with ⟨_, h2⟩
    exact List.cons_ne_nil _ _ h2
  rw [if_neg hne]
  rw [show k ++ ':' :: ' ' :: val = k ++ ':' :: (' ' :: val) from rfl]
  rw [splitOnFirst_append ':' k (' ' :: val) (fun c hc he => hk (he ▸ hc))]
  dsimp only
  rw [List.dropWhile_cons]
  rw [show isSpTab ' ' = true from rfl]
  simp only [if_true]
  rw [dropWhile_head_not isSpTab val hv.2.2]

theorem mimeLoop_blank (tail : GoStr) (acc : Header) :
    mimeLoop ('\r' :: '\n' :: tail) [] acc = .ok (acc, tail) := rfl

theorem identOkB_no_nl {ident : GoStr} (h : identOkB ident = true) :
    '\n' ∉ ident ∧ '\r' ∉ ident ∧ (∀ c, ident.head? = some c → isSpTab c = false) := by
  unfold identOkB at h
  rw [Bool.and_eq_true] at h
  obtain ⟨h1, h2⟩ := h
  rw [Bool.not_eq_true', List.any_eq_false] at h1
  refine ⟨fun hc => ?_, fun hc => ?_, ?_⟩
  · have := h1 _ hc
    simp at this
  · have := h1 _ hc
    simp at this
  · intro c hc
    cases ident with
    | nil => cases hc
    | cons d t =>
      rw [List.head?_cons, Option.some_inj] at hc
      subst hc
      rw [Bool.not_eq_true'] at h2
      exact h2

theorem digit_not_sptab {c : Char} (h : isDigitChar c = true) : isSpTab c = false := by
  unfold isDigitChar at h
  rw [Bool.and_eq_true, decide_eq_true_eq, decide_eq_true_eq] at h
  have hs : c ≠ ' ' := fun he => by
    subst he
    exact absurd h.1 (by decide)
  have ht : c ≠ '\t' := fun he => by
    subst he
    exact absurd h.1 (by decide)
  unfold isSpTab
  rw [decide_eq_false hs, decide_eq_false ht]
  rfl

theorem addAssoc_cons_ne (k1 : GoStr) (vs : List GoStr) (t : Header) (k v : GoStr)
    (h : k1 ≠ k) : addAssoc ((k1, vs) :: t) k v = (k1, vs) :: addAssoc t k v := by
  rw [addAssoc.eq_def]
  dsimp only
  rw [if_neg h]

theorem addAssoc_cons_eq (k1 : GoStr) (vs : List GoStr) (t : Header) (k v : GoStr)
    (h : k1 = k) : addAssoc ((k1, vs) :: t) k v = (k1, vs ++ [v]) :: t := by
  rw [addAssoc.eq_def]
  dsimp only
  rw [if_pos h]

theorem natToDec_props (n : Nat) :
    '\n' ∉ natToDec n ∧ '\r' ∉ natToDec n ∧
    (∀ c, (natToDec n).head? = some c → isSpTab c = false) := by
  refine ⟨fun hc => absurd (natToDec_digits n '\n' hc) (by decide),
    fun hc => absurd (natToDec_digits n '\r' hc) (by decide), ?_⟩
  intro c hc
  cases hm : natToDec n with
  | nil => rw [hm] at hc; cases hc
  | cons d t =>
    rw [hm, List.head?_cons, Option.some_inj] at hc
    rw [← hc]
    exact digit_not_sptab (natToDec_digits n d (hm ▸ List.mem_cons_self d t))

theorem mime_mini (ident : GoStr) (n : Nat) (tail : GoStr) (hid : identOkB ident = true) :
    mimeReadHeader (encodeMini ident n ++ tail) =
      .ok ([("Identifier".toList, [ident]), ("Length".toList, [natToDec n])], tail) := by
  obtain ⟨hnl, hcr, hsp⟩ := identOkB_no_nl hid
  unfold mimeReadHeader
  have hshape : encodeMini ident n ++ tail =
      "Identifier".toList ++ ':' :: ' ' :: (ident ++ '\r' :: '\n' ::
        ("Length".toList ++ ':' :: ' ' :: (natToDec n ++ '\r' :: '\n' ::
          ('\r' :: '\n' :: tail)))) := by
    simp [encodeMini, List.append_assoc]
  rw [hshape]
  rw [mimeLoop_line "Identifier".toList ident _ [] (by decide) (by decide) ⟨hnl, hcr, hsp⟩]
  rw [mimeLoop_line "Length".toList (natToDec n) _ _ (by decide) (by decide) (natToDec_props n)]
  rw [mimeLoop_blank]
  rw [show canonicalKey ("Identifier".toList) = "Identifier".toList from by decide,
    show canonicalKey ("Length".toList) = "Length".toList from by decide]
  show Except.ok (addAssoc [("Identifier".toList, [ident])] "Length".toList (natToDec n), tail) = _
  rw [addAssoc_cons_ne _ _ _ _ _ (by decide)]
  rfl

theorem lookupA_cons_eq (k1 : GoStr) (vs : List GoStr) (t : Header) (k : GoStr)
    (h : k1 = k) : lookupA ((k1, vs) :: t) k = some vs := by
  rw [lookupA.eq_def]
  dsimp only
  rw [if_pos h]

theorem lookupA_cons_ne (k1 : GoStr) (vs : List GoStr) (t : Header) (k : GoStr)
    (h : k1 ≠ k) : lookupA ((k1, vs) :: t) k = lookupA t k := by
  rw [lookupA.eq_def]
  dsimp only
  rw [if_neg h]

/-- Claim C4: a binary section declaring `Length: n` whose stream ends
before `n` payload bytes always produces the code-300 "data
incomplete" protocol error carrying that resource's identifier, never
a bare I/O error. -/
theorem gntp_c4 (headers : List Header) (ident : GoStr) (n : Nat) (payload : GoStr)
    (hid : identOkB ident = true) (hshort : payload.length < n)
    (hcount : 1 ≤ countResources headers) :
    readBinaries headers (encodeMini ident n ++ payload) =
      .error (.gntp (InvalidRequestError (ident ++ " data incomplete".toList))) ∧
    (InvalidRequestError (ident ++ " data incomplete".toList)).code = 300 ∧
    (InvalidRequestError (ident ++ " data incomplete".toList)).description =
      "The request was malformed: ".toList ++ (ident ++ " data incomplete".toList) := by
  refine ⟨?_, rfl, rfl⟩
  unfold readBinaries
  obtain ⟨m, hm⟩ : ∃ m, countResources headers = m + 1 :=
    ⟨countResources headers - 1, by omega⟩
  rw [hm]
  rw [readBinLoop.eq_def]
  dsimp only
  rw [mime_mini ident n payload hid]
  dsimp only
  rw [lookupA_cons_eq _ _ _ _ rfl]
  dsimp only
  rw [lookupA_cons_ne _ _ _ _ (by decide), lookupA_cons_eq _ _ _ _ rfl]
  simp only [List.headD_cons]
  rw [parseDec_natToDec]
  dsimp only
  unfold fileCacheAdd
  rw [if_pos hshort]

theorem gntp_c4_w :
    identOkB "res1".toList = true ∧ ("ab".toList : GoStr).length < 5 ∧
    1 ≤ countResources [[("Notification-Icon".toList, ["x-growl-resource://res1".toList])]] ∧
    readBinaries [[("Notification-Icon".toList, ["x-growl-resource://res1".toList])]]
      (encodeMini "res1".toList 5 ++ "ab".toList) =
      .error (.gntp (InvalidRequestError ("res1".toList ++ " data incomplete".toList))) :=
  ⟨by decide, by decide, by decide,
   (gntp_c4 [[("Notification-Icon".toList, ["x-growl-resource://res1".toList])]]
     "res1".toList 5 "ab".toList (by decide) (by decide) (by decide)).1⟩

theorem foldl_count_vals (p : GoStr → Bool) (vs : List GoStr) (n : Nat) :
    vs.foldl (fun n v => if p v then n + 1 else n) n = n + (vs.filter p).length := by
  induction vs generalizing n with
  | nil => simp
  | cons v t ih =>
    rw [List.foldl_cons, List.filter_cons]
    cases hp : p v
    · simp only [Bool.false_eq_true, if_false]
      rw [ih]
    · simp only [if_true]
      rw [ih, List.length_cons]
      omega

theorem foldl_count_entries (p : GoStr → Bool) (h : Header) (n : Nat) :
    h.foldl (fun n e => e.2.foldl (fun n v => if p v then n + 1 else n) n) n =
      n + ((h.flatMap (fun e => e.2)).filter p).length := by
  induction h generalizing n with
  | nil => simp
  | cons e t ih =>
    rw [List.foldl_cons, foldl_count_vals, ih, List.flatMap_cons, List.filter_append,
      List.length_append]
    omega

theorem foldl_count_headers (p : GoStr → Bool) (hs : List Header) (n : Nat) :
    hs.foldl (fun n h => h.foldl
      (fun n e => e.2.foldl (fun n v => if p v then n + 1 else n) n) n) n =
      n + ((hs.flatMap (fun b => b.flatMap (fun e => e.2))).filter p).length := by
  induction hs generalizing n with
  | nil => simp
  | cons h t ih =>
    rw [List.foldl_cons, foldl_count_entries, ih, List.flatMap_cons, List.filter_append,
      List.length_append]
    omega

theorem readEol_crlf (ident tail : GoStr) : readEol ident ('\r' :: '\n' :: tail) = .ok tail := rfl

theorem readBinLoop_sections (sections : List (GoStr × GoStr)) :
    ∀ (rest : GoStr) (bs : List (GoStr × BinaryRec)),
    (∀ s ∈ sections, identOkB s.1 = true) →
    readBinLoop sections.length (encodeSections sections ++ rest) bs =
      .ok (sections.foldl (fun m sec => insertOver m sec.1 ⟨sec.1, sec.2.length⟩) bs, rest) := by
  induction sections with
  | nil =>
    intro rest bs _
    show readBinLoop 0 (encodeSections [] ++ rest) bs = _
    rw [show encodeSections [] = [] from rfl, List.nil_append]
    rfl
  | cons sec secs ih =>
    intro rest bs hok
    obtain ⟨i, d⟩ := sec
    have hshape : encodeSections ((i, d) :: secs) ++ rest =
        encodeMini i d.length ++ (d ++ '\r' :: '\n' ::
          ('\r' :: '\n' :: (encodeSections secs ++ rest))) := by
      show (encodeSections ((i, d) :: secs)) ++ rest = _
      rw [show encodeSections ((i, d) :: secs) =
        encodeSection (i, d) ++ encodeSections secs from List.flatMap_cons ..]
      simp [encodeSection, List.append_assoc]
    rw [List.length_cons, hshape, readBinLoop.eq_def]
    dsimp only
    rw [mime_mini i d.length _ (hok (i, d) (List.mem_cons_self _ _))]
    dsimp only
    rw [lookupA_cons_eq _ _ _ _ rfl]
    dsimp only
    rw [lookupA_cons_ne _ _ _ _ (by decide), lookupA_cons_eq _ _ _ _ rfl]
    simp only [List.headD_cons]
    rw [parseDec_natToDec]
    dsimp only
    rw [fileCacheAdd.eq_def]
    rw [if_neg (by
      rw [List.length_append]
      omega)]
    dsimp only
    rw [show (d ++ '\r' :: '\n' :: ('\r' :: '\n' :: (encodeSections secs ++ rest))).drop d.length
      = '\r' :: '\n' :: ('\r' :: '\n' :: (encodeSections secs ++ rest)) from by
        rw [show d.length = (d : GoStr).length from rfl]
        exact List.drop_left _ _]
    rw [readEol_crlf]
    dsimp only
    rw [readEol_crlf]
    dsimp only
    rw [ih rest _ (fun s hs => hok s (List.mem_cons_of_mem _ hs))]
    rw [List.foldl_cons]

/-- Claim C2 (amended): the Binary Resource Reader counts exactly the
header values that begin with the lowercase prefix
`x-growl-resource://` compared case-sensitively (`strings.HasPrefix`) —
a value beginning `X-Growl-Resource://` is not counted — and then
reads exactly that many binary sections from the stream. -/
theorem gntp_c2 :
    (∀ hs : List Header, countResources hs =
      ((hs.flatMap (fun b => b.flatMap (fun e => e.2))).filter
        (fun v => resPfx.isPrefixOf v)).length) ∧
    (∀ (sections : List (GoStr × GoStr)) (headers : List Header) (rest : GoStr),
      countResources headers = sections.length →
      (∀ s ∈ sections, identOkB s.1 = true) →
      readBinaries headers (encodeSections sections ++ rest) =
        .ok (binMapOf sections, rest)) := by
  constructor
  · intro hs
    unfold countResources
    rw [foldl_count_headers]
    exact Nat.zero_add _
  · intro sections headers rest hcount hok
    unfold readBinaries
    rw [hcount, readBinLoop_sections sections rest [] hok]
    rfl

/-- Claim C2, counterexample to the stated case-insensitive reading: a
value beginning `X-Growl-Resource://` matches the prefix
case-insensitively, yet the reader counts zero references for it and
reads zero sections from a stream that holds a well-formed section. -/
theorem gntp_c2_cx :
    ciStarts resPfx "X-Growl-Resource://abc".toList = true ∧
    countResources cxHeaders = 0 ∧
    readBinaries cxHeaders cxStream = .ok ([], cxStream) :=
  ⟨by decide, by decide, rfl⟩

theorem gntp_c2_w :
    countResources [[("Notification-Icon".toList, ["x-growl-resource://abc".toList])]] =
      ([("x-growl-resource://abc".toList : GoStr)].filter
        (fun v => resPfx.isPrefixOf v)).length ∧
    readBinaries [[("Notification-Icon".toList, ["x-growl-resource://abc".toList])]]
      (encodeSections [("abc".toList, "XY".toList)] ++ "junk".toList) =
      .ok (binMapOf [("abc".toList, "XY".toList)], "junk".toList) :=
  ⟨by
    rw [gntp_c2.1 [[("Notification-Icon".toList, ["x-growl-resource://abc".toList])]]]
    decide,
   gntp_c2.2 [("abc".toList, "XY".toList)]
     [[("Notification-Icon".toList, ["x-growl-resource://abc".toList])]]
     "junk".toList (by decide) (by decide)⟩

theorem charToNat_ofNat (n : Nat) (h : n < 55296) : (Char.ofNat n).toNat = n := by
  unfold Char.ofNat
  rw [dif_pos (Or.inl h)]
  rfl

theorem upChar_toNat (c : Char) :
    (upChar c).toNat = if 97 ≤ c.toNat ∧ c.toNat ≤ 122 then c.toNat - 32 else c.toNat := by
  unfold upChar
  by_cases h : 97 ≤ c.toNat ∧ c.toNat ≤ 122
  · rw [if_pos (by simp [h.1, h.2]), if_pos h]
    exact charToNat_ofNat _ (by omega)
  · rw [if_neg (by
      rw [Bool.and_eq_true, decide_eq_true_eq, decide_eq_true_eq]
      exact h), if_neg h]

theorem downChar_toNat (c : Char) :
    (downChar c).toNat = if 65 ≤ c.toNat ∧ c.toNat ≤ 90 then c.toNat + 32 else c.toNat := by
  unfold downChar
  by_cases h : 65 ≤ c.toNat ∧ c.toNat ≤ 90
  · rw [if_pos (by simp [h.1, h.2]), if_pos h]
    exact charToNat_ofNat _ (by omega)
  · rw [if_neg (by
      rw [Bool.and_eq_true, decide_eq_true_eq, decide_eq_true_eq]
      exact h), if_neg h]

theorem upChar_eq_self (c : Char) (h : ¬(97 ≤ c.toNat ∧ c.toNat ≤ 122)) : upChar c = c := by
  unfold upChar
  rw [if_neg (by
    rw [Bool.and_eq_true, decide_eq_true_eq, decide_eq_true_eq]
    exact h)]

theorem downChar_eq_self (c : Char) (h : ¬(65 ≤ c.toNat ∧ c.toNat ≤ 90)) : downChar c = c := by
  unfold downChar
  rw [if_neg (by
    rw [Bool.and_eq_true, decide_eq_true_eq, decide_eq_true_eq]
    exact h)]

theorem upChar_upChar (c : Char) : upChar (upChar c) = upChar c := by
  apply upChar_eq_self
  rw [upChar_toNat]
  by_cases h : 97 ≤ c.toNat ∧ c.toNat ≤ 122
  · rw [if_pos h]
    omega
  · rw [if_neg h]
    exact h

theorem downChar_downChar (c : Char) : downChar (downChar c) = downChar c := by
  apply downChar_eq_self
  rw [downChar_toNat]
  by_cases h : 65 ≤ c.toNat ∧ c.toNat ≤ 90
  · rw [if_pos h]
    omega
  · rw [if_neg h]
    exact h

set_option maxHeartbeats 1000000 in
theorem isTokenCharN_iff (n : Nat) : isTokenCharN n = true ↔
    ((48 ≤ n ∧ n ≤ 57) ∨ (65 ≤ n ∧ n ≤ 90) ∨ (97 ≤ n ∧ n ≤ 122) ∨
     n = 33 ∨ n = 35 ∨ n = 36 ∨ n = 37 ∨ n = 38 ∨ n = 39 ∨ n = 42 ∨
     n = 43 ∨ n = 45 ∨ n = 46 ∨ n = 94 ∨ n = 95 ∨ n = 96 ∨ n = 124 ∨ n = 126) := by
  unfold isTokenCharN
  simp only [Bool.or_eq_true, Bool.and_eq_true, decide_eq_true_eq]
  omega

theorem isTokenChar_upChar {c : Char} (h : isTokenChar c = true) :
    isTokenChar (upChar c) = true := by
  unfold isTokenChar at h ⊢
  rw [isTokenCharN_iff] at h ⊢
  rw [upChar_toNat]
  by_cases hlc : 97 ≤ c.toNat ∧ c.toNat ≤ 122
  · rw [if_pos hlc]
    omega
  · rw [if_neg hlc]
    exact h

theorem isTokenChar_downChar {c : Char} (h : isTokenChar c = true) :
    isTokenChar (downChar c) = true := by
  unfold isTokenChar at h ⊢
  rw [isTokenCharN_iff] at h ⊢
  rw [downChar_toNat]
  by_cases huc : 65 ≤ c.toNat ∧ c.toNat ≤ 90
  · rw [if_pos huc]
    omega
  · rw [if_neg huc]
    exact h

theorem tokenChar_ne {c : Char} (h : isTokenChar c = true) : c ≠ ':' ∧ c ≠ '\n' := by
  unfold isTokenChar at h
  rw [isTokenCharN_iff] at h
  constructor
  · intro he
    subst he
    revert h
    decide
  · intro he
    subst he
    revert h
    decide

theorem canonChars_idem (l : GoStr) : ∀ up, canonChars up (canonChars up l) = canonChars up l := by
  induction l with
  | nil => intro up; cases up <;> rfl
  | cons c t ih =>
    intro up
    cases up with
    | true =>
      show canonChars true (upChar c :: canonChars (upChar c = '-') t) = _
      show upChar (upChar c) :: canonChars (upChar (upChar c) = '-')
        (canonChars (upChar c = '-') t) = _
      rw [upChar_upChar, ih]
      rfl
    | false =>
      show canonChars false (downChar c :: canonChars (downChar c = '-') t) = _
      show downChar (downChar c) :: canonChars (downChar (downChar c) = '-')
        (canonChars (downChar c = '-') t) = _
      rw [downChar_downChar, ih]
      rfl

theorem canonChars_token (l : GoStr) (hl : ∀ c ∈ l, isTokenChar c = true) :
    ∀ up, ∀ c ∈ canonChars up l, isTokenChar c = true := by
  induction l with
  | nil =>
    intro up c hc
    cases up <;> simp [canonChars] at hc
  | cons d t ih =>
    intro up c hc
    have htail := ih (fun x hx => hl x (List.mem_cons_of_mem d hx))
    have hd := hl d (List.mem_cons_self d t)
    cases up with
    | true =>
      rw [show canonChars true (d :: t) = upChar d :: canonChars (upChar d = '-') t
        from rfl] at hc
      rcases List.mem_cons.mp hc with rfl | hc
      · exact isTokenChar_upChar hd
      · exact htail _ c hc
    | false =>
      rw [show canonChars false (d :: t) = downChar d :: canonChars (downChar d = '-') t
        from rfl] at hc
      rcases List.mem_cons.mp hc with rfl | hc
      · exact isTokenChar_downChar hd
      · exact htail _ c hc

theorem canonChars_length (l : GoStr) : ∀ up, (canonChars up l).length = l.length := by
  induction l with
  | nil => intro up; cases up <;> rfl
  | cons c t ih =>
    intro up
    cases up with
    | true =>
      show (upChar c :: canonChars (upChar c = '-') t).length = _
      rw [List.length_cons, List.length_cons, ih]
    | false =>
      show (downChar c :: canonChars (downChar c = '-') t).length = _
      rw [List.length_cons, List.length_cons, ih]

theorem canonicalKey_idem (k : GoStr) : canonicalKey (canonicalKey k) = canonicalKey k := by
  unfold canonicalKey
  by_cases h : k.all isTokenChar = true
  · rw [if_pos h]
    have htok : (canonChars true k).all isTokenChar = true :=
      List.all_eq_true.mpr (canonChars_token k (List.all_eq_true.mp h) true)
    rw [if_pos htok, canonChars_idem]
  · rw [if_neg h, if_neg h]

theorem canonicalKey_keyOk {k : GoStr} (h : keyOkB k = true) :
    keyOkB (canonicalKey k) = true ∧ canonicalKey (canonicalKey k) = canonicalKey k := by
  unfold keyOkB at h
  rw [Bool.and_eq_true] at h
  obtain ⟨hne, htok⟩ := h
  refine ⟨?_, canonicalKey_idem k⟩
  unfold canonicalKey
  rw [if_pos htok]
  unfold keyOkB
  rw [Bool.and_eq_true]
  constructor
  · cases k with
    | nil =>
      rw [Bool.not_eq_true'] at hne
      exact absurd hne (by decide)
    | cons c t => rfl
  · exact List.all_eq_true.mpr (canonChars_token k (List.all_eq_true.mp htok) true)

theorem lookupA_addAssoc_eq (h : Header) (k v : GoStr) :
    lookupA (addAssoc h k v) k = some ((lookupA h k).getD [] ++ [v]) := by
  induction h with
  | nil =>
    rw [show addAssoc [] k v = [(k, [v])] from rfl, lookupA_cons_eq _ _ _ _ rfl]
    rfl
  | cons e t ih =>
    obtain ⟨k1, vs⟩ := e
    by_cases hk : k1 = k
    · rw [addAssoc_cons_eq _ _ _ _ _ hk, lookupA_cons_eq _ _ _ _ hk,
        lookupA_cons_eq _ _ _ _ hk]
      rfl
    · rw [addAssoc_cons_ne _ _ _ _ _ hk, lookupA_cons_ne _ _ _ _ hk,
        lookupA_cons_ne _ _ _ _ hk, ih]

theorem lookupA_addAssoc_ne (h : Header) (k v k2 : GoStr) (hne : k ≠ k2) :
    lookupA (addAssoc h k v) k2 = lookupA h k2 := by
  induction h with
  | nil =>
    rw [show addAssoc [] k v = [(k, [v])] from rfl, lookupA_cons_ne _ _ _ _ hne]
  | cons e t ih =>
    obtain ⟨k1, vs⟩ := e
    by_cases hk : k1 = k
    · rw [addAssoc_cons_eq _ _ _ _ _ hk]
      by_cases h2 : k1 = k2
      · exact absurd (h2 ▸ hk.symm) (by exact fun he => hne he)
      · rw [lookupA_cons_ne _ _ _ _ (hk ▸ h2), lookupA_cons_ne _ _ _ _ h2]
    · rw [addAssoc_cons_ne _ _ _ _ _ hk]
      by_cases h2 : k1 = k2
      · rw [lookupA_cons_eq _ _ _ _ h2, lookupA_cons_eq _ _ _ _ h2]
      · rw [lookupA_cons_ne _ _ _ _ h2, lookupA_cons_ne _ _ _ _ h2, ih]

/-- The per-key value sequence after a batch of `Add` calls on top of
an existing header: previous values first, then the added values whose
canonicalised key matches, in insertion order. -/
theorem lookupA_fold (adds : List (GoStr × GoStr)) :
    ∀ (h : Header) (K : GoStr),
    lookupA (adds.foldl (fun h p => headerAdd h p.1 p.2) h) K =
      (match lookupA h K with
       | some vs => some (vs ++ (adds.filter (fun p => canonicalKey p.1 = K)).map Prod.snd)
       | none =>
         if (adds.filter (fun p => canonicalKey p.1 = K)).map Prod.snd = [] then none
         else some ((adds.filter (fun p => canonicalKey p.1 = K)).map Prod.snd)) := by
  induction adds with
  | nil =>
    intro h K
    rw [List.foldl_nil, List.filter_nil, List.map_nil]
    cases hl : lookupA h K with
    | none =>
      dsimp only
      rw [if_pos rfl]
    | some vs =>
      dsimp only
      rw [List.append_nil]
  | cons p t ih =>
    intro h K
    rw [List.foldl_cons, ih]
    unfold headerAdd
    by_cases hck : canonicalKey p.1 = K
    · rw [hck, lookupA_addAssoc_eq]
      cases hl : lookupA h K with
      | none => simp [List.filter_cons, hck]
      | some vs => simp [List.filter_cons, hck]
    · rw [lookupA_addAssoc_ne h (canonicalKey p.1) p.2 K hck]
      cases hl : lookupA h K with
      | none =>
        simp only [List.filter_cons,
          show (decide (canonicalKey p.1 = K)) = false from by simp [hck]]
        simp
      | some vs => simp [List.filter_cons, hck]

theorem valOkB_props {v : GoStr} (h : valOkB v = true) :
    '\n' ∉ v ∧ '\r' ∉ v ∧
    (∀ c, v.head? = some c → isWSChar c = false) ∧
    (∀ c, v.getLast? = some c → isWSChar c = false) := by
  unfold valOkB at h
  rw [Bool.and_eq_true, Bool.and_eq_true] at h
  obtain ⟨⟨h1, h2⟩, h3⟩ := h
  rw [Bool.not_eq_true', List.any_eq_false] at h1
  refine ⟨fun hc => ?_, fun hc => ?_, ?_, ?_⟩
  · have := h1 _ hc
    simp at this
  · have := h1 _ hc
    simp at this
  · intro c hc
    cases v with
    | nil => cases hc
    | cons d t =>
      rw [List.head?_cons, Option.some_inj] at hc
      rw [← hc]
      rw [Bool.not_eq_true'] at h2
      exact h2
  · intro c hc
    rw [hc] at h3
    rw [Bool.not_eq_true'] at h3
    exact h3

theorem isWS_not_sptab {c : Char} (h : isWSChar c = false) : isSpTab c = false := by
  unfold isSpTab
  have hs : c ≠ ' ' := fun he => by
    subst he
    exact absurd h (by decide)
  have ht : c ≠ '\t' := fun he => by
    subst he
    exact absurd h (by decide)
  rw [decide_eq_false hs, decide_eq_false ht]
  rfl

theorem trimWS_id (v : GoStr)
    (hh : ∀ c, v.head? = some c → isWSChar c = false)
    (hl : ∀ c, v.getLast? = some c → isWSChar c = false) :
    trimWS v = v := by
  unfold trimWS
  rw [dropWhile_head_not isWSChar v hh]
  rw [dropWhile_head_not isWSChar v.reverse (fun c hc => hl c (by
    rw [List.head?_reverse] at hc
    exact hc))]
  exact List.reverse_reverse v

theorem sanitize_id (v : GoStr) (h : valOkB v = true) : sanitizeValue v = v := by
  obtain ⟨h1, h2, h3, h4⟩ := valOkB_props h
  unfold sanitizeValue
  have hmap : v.map nlToSpace = v := by
    rw [show v.map nlToSpace = v.map id from List.map_congr_left (fun a ha => by
      unfold nlToSpace
      rw [if_neg]
      · rfl
      · simp only [Bool.or_eq_true, decide_eq_true_eq]
        rintro (rfl | rfl)
        · exact h1 ha
        · exact h2 ha)]
    exact List.map_id v
  rw [hmap]
  exact trimWS_id v h3 h4

theorem lookupA_append (a : Header) (k1 : GoStr) (vs : List GoStr) (k : GoStr) :
    lookupA (a ++ [(k1, vs)]) k =
      match lookupA a k with
      | some v => some v
      | none => if k1 = k then some vs else none := by
  induction a with
  | nil =>
    rw [List.nil_append]
    by_cases hk : k1 = k
    · rw [lookupA_cons_eq _ _ _ _ hk]
      rw [show lookupA [] k = (none : Option (List GoStr)) from rfl]
      rw [if_pos hk]
    · rw [lookupA_cons_ne _ _ _ _ hk]
      rw [show lookupA [] k = (none : Option (List GoStr)) from rfl]
      rw [if_neg hk]
  | cons e t ih =>
    obtain ⟨k2, vs2⟩ := e
    by_cases hk : k2 = k
    · rw [List.cons_append, lookupA_cons_eq _ _ _ _ hk, lookupA_cons_eq _ _ _ _ hk]
    · rw [List.cons_append, lookupA_cons_ne _ _ _ _ hk, lookupA_cons_ne _ _ _ _ hk, ih]

theorem lookupA_eq_none_iff (h : Header) (k : GoStr) :
    lookupA h k = none ↔ k ∉ h.map Prod.fst := by
  induction h with
  | nil =>
    rw [show lookupA [] k = (none : Option (List GoStr)) from rfl]
    simp
  | cons e t ih =>
    obtain ⟨k1, vs⟩ := e
    by_cases hk : k1 = k
    · rw [lookupA_cons_eq _ _ _ _ hk, List.map_cons]
      simp only [List.mem_cons]
      constructor
      · intro hc
        cases hc
      · intro hmem
        exact absurd (Or.inl hk.symm) hmem
    · rw [lookupA_cons_ne _ _ _ _ hk, List.map_cons]
      simp only [List.mem_cons]
      rw [ih]
      constructor
      · intro hmem hc
        rcases hc with hc | hc
        · exact hk (hc ▸ rfl)
        · exact hmem hc
      · intro hmem hc
        exact hmem (Or.inr hc)

theorem addAssoc_fresh (h : Header) (k v : GoStr) (hfresh : lookupA h k = none) :
    addAssoc h k v = h ++ [(k, [v])] := by
  induction h with
  | nil => rfl
  | cons e t ih =>
    obtain ⟨k1, vs⟩ := e
    by_cases hk : k1 = k
    · rw [lookupA_cons_eq _ _ _ _ hk] at hfresh
      cases hfresh
    · rw [lookupA_cons_ne _ _ _ _ hk] at hfresh
      rw [addAssoc_cons_ne _ _ _ _ _ hk, ih hfresh, List.cons_append]

theorem addAssoc_append_last (a : Header) (k : GoStr) (u : List GoStr) (v : GoStr)
    (hfresh : lookupA a k = none) :
    addAssoc (a ++ [(k, u)]) k v = a ++ [(k, u ++ [v])] := by
  induction a with
  | nil =>
    rw [List.nil_append, List.nil_append, addAssoc_cons_eq _ _ _ _ _ rfl]
  | cons e t ih =>
    obtain ⟨k1, vs⟩ := e
    by_cases hk : k1 = k
    · rw [lookupA_cons_eq _ _ _ _ hk] at hfresh
      cases hfresh
    · rw [lookupA_cons_ne _ _ _ _ hk] at hfresh
      rw [List.cons_append, addAssoc_cons_ne _ _ _ _ _ hk, ih hfresh, List.cons_append]

theorem foldl_addAssoc_tail (k : GoStr) (vs : List GoStr) :
    ∀ (a : Header) (u : List GoStr), lookupA a k = none →
    vs.foldl (fun h v => addAssoc h k v) (a ++ [(k, u)]) = a ++ [(k, u ++ vs)] := by
  induction vs with
  | nil =>
    intro a u _
    rw [List.foldl_nil, List.append_nil]
  | cons v t ih =>
    intro a u hfresh
    rw [List.foldl_cons, addAssoc_append_last a k u v hfresh, ih a (u ++ [v]) hfresh,
      List.append_assoc, List.singleton_append]

theorem foldl_addAssoc_entry (k : GoStr) (vs : List GoStr) (a : Header)
    (hfresh : lookupA a k = none) (hne : vs ≠ []) :
    vs.foldl (fun h v => addAssoc h k v) a = a ++ [(k, vs)] := by
  cases vs with
  | nil => exact absurd rfl hne
  | cons v t =>
    rw [List.foldl_cons, addAssoc_fresh a k v hfresh, foldl_addAssoc_tail k t a [v] hfresh,
      List.singleton_append]

theorem mimeLoop_entry (k : GoStr) (vs : List GoStr) :
    ∀ (acc : Header) (rest : GoStr),
    ':' ∉ k → '\n' ∉ k → canonicalKey k = k →
    (∀ v ∈ vs, valOkB v = true) →
    mimeLoop ((vs.flatMap (fun v => k ++ ':' :: ' ' :: sanitizeValue v ++ ['\r', '\n'])) ++ rest)
      [] acc =
      mimeLoop rest [] (vs.foldl (fun a v => addAssoc a k v) acc) := by
  induction vs with
  | nil =>
    intro acc rest _ _ _ _
    rw [show (([] : List GoStr).flatMap
      (fun v => k ++ ':' :: ' ' :: sanitizeValue v ++ ['\r', '\n'])) = [] from rfl,
      List.nil_append, List.foldl_nil]
  | cons v t ih =>
    intro acc rest hcol hnl hck hvs
    have hv := hvs v (List.mem_cons_self v t)
    obtain ⟨hv1, hv2, hv3, _⟩ := valOkB_props hv
    have hshape : ((v :: t).flatMap
        (fun v => k ++ ':' :: ' ' :: sanitizeValue v ++ ['\r', '\n'])) ++ rest =
        k ++ ':' :: ' ' :: (v ++ '\r' :: '\n' ::
          ((t.flatMap (fun v => k ++ ':' :: ' ' :: sanitizeValue v ++ ['\r', '\n'])) ++ rest)) := by
      rw [List.flatMap_cons, sanitize_id v hv]
      simp [List.append_assoc]
    rw [hshape]
    rw [mimeLoop_line k v _ acc hcol hnl
      ⟨hv1, hv2, fun c hc => isWS_not_sptab (hv3 c hc)⟩]
    rw [hck]
    rw [ih (addAssoc acc k v) rest hcol hnl hck
      (fun x hx => hvs x (List.mem_cons_of_mem v hx))]
    rw [List.foldl_cons]

/-- Parsing back the wire form of a well-formed header block (followed
by its blank-line terminator) rebuilds exactly the block appended to
the accumulator. -/
theorem mime_write (h : Header) :
    ∀ acc : Header,
    (∀ e ∈ h, (keyOkB e.1 = true ∧ canonicalKey e.1 = e.1) ∧ e.2 ≠ [] ∧
      ∀ v ∈ e.2, valOkB v = true) →
    (∀ e ∈ h, lookupA acc e.1 = none) →
    (h.map Prod.fst).Nodup →
    mimeLoop (writeHeader h ++ '\r' :: '\n' :: []) [] acc = .ok (acc ++ h, []) := by
  induction h with
  | nil =>
    intro acc _ _ _
    rw [show writeHeader [] = [] from rfl, List.nil_append, mimeLoop_blank, List.append_nil]
  | cons e t ih =>
    intro acc hgood hfresh hnodup
    obtain ⟨⟨hkey, hck⟩, hne, hvals⟩ := hgood e (List.mem_cons_self e t)
    have hktok : ∀ c ∈ e.1, isTokenChar c = true := by
      unfold keyOkB at hkey
      rw [Bool.and_eq_true] at hkey
      exact List.all_eq_true.mp hkey.2
    have hcol : ':' ∉ e.1 := fun hc => (tokenChar_ne (hktok _ hc)).1 rfl
    have hnl : '\n' ∉ e.1 := fun hc => (tokenChar_ne (hktok _ hc)).2 rfl
    have hshape : writeHeader (e :: t) ++ '\r' :: '\n' :: [] =
        (e.2.flatMap (fun v => e.1 ++ ':' :: ' ' :: sanitizeValue v ++ ['\r', '\n'])) ++
          (writeHeader t ++ '\r' :: '\n' :: []) := by
      rw [show writeHeader (e :: t) =
        (e.2.flatMap (fun v => e.1 ++ ':' :: ' ' :: sanitizeValue v ++ ['\r', '\n'])) ++
          writeHeader t from List.flatMap_cons ..]
      rw [List.append_assoc]
    rw [hshape]
    rw [mimeLoop_entry e.1 e.2 acc _ hcol hnl hck hvals]
    rw [foldl_addAssoc_entry e.1 e.2 acc (hfresh e (List.mem_cons_self e t)) hne]
    have hnodup2 : (t.map Prod.fst).Nodup := by
      rw [List.map_cons, List.nodup_cons] at hnodup
      exact hnodup.2
    have hnotmem : e.1 ∉ t.map Prod.fst := by
      rw [List.map_cons, List.nodup_cons] at hnodup
      exact hnodup.1
    rw [ih (acc ++ [(e.1, e.2)]) (fun x hx => hgood x (List.mem_cons_of_mem e hx))
      (fun x hx => by
        rw [lookupA_append, hfresh x (List.mem_cons_of_mem e hx)]
        rw [if_neg (fun he => hnotmem (by
          rw [he]
          exact List.mem_map_of_mem Prod.fst hx))])
      hnodup2]
    rw [List.append_assoc, List.singleton_append]

theorem keys_addAssoc_some (h : Header) (k v : GoStr) :
    ∀ vs, lookupA h k = some vs →
    (addAssoc h k v).map Prod.fst = h.map Prod.fst := by
  induction h with
  | nil =>
    intro vs hvs
    cases hvs
  | cons e t ih =>
    intro vs hvs
    obtain ⟨k1, vs1⟩ := e
    by_cases hk : k1 = k
    · rw [addAssoc_cons_eq _ _ _ _ _ hk, List.map_cons, List.map_cons]
    · rw [lookupA_cons_ne _ _ _ _ hk] at hvs
      rw [addAssoc_cons_ne _ _ _ _ _ hk, List.map_cons, List.map_cons, ih vs hvs]

theorem lookupA_some_mem (h : Header) (k : GoStr) :
    ∀ vs, lookupA h k = some vs → (k, vs) ∈ h := by
  induction h with
  | nil =>
    intro vs hvs
    cases hvs
  | cons e t ih =>
    intro vs hvs
    obtain ⟨k1, vs1⟩ := e
    by_cases hk : k1 = k
    · rw [lookupA_cons_eq _ _ _ _ hk] at hvs
      rw [Option.some_inj] at hvs
      subst hvs
      subst hk
      exact List.mem_cons_self _ _
    · rw [lookupA_cons_ne _ _ _ _ hk] at hvs
      exact List.mem_cons_of_mem _ (ih vs hvs)

theorem mem_addAssoc (h : Header) (k v : GoStr) :
    ∀ e ∈ addAssoc h k v,
      e ∈ h ∨ (∃ vs, lookupA h k = some vs ∧ e = (k, vs ++ [v])) ∨
        (lookupA h k = none ∧ e = (k, [v])) := by
  induction h with
  | nil =>
    intro e he
    rcases List.mem_singleton.mp he with rfl
    exact Or.inr (Or.inr ⟨rfl, rfl⟩)
  | cons e0 t ih =>
    intro e he
    obtain ⟨k1, vs1⟩ := e0
    by_cases hk : k1 = k
    · rw [addAssoc_cons_eq _ _ _ _ _ hk] at he
      rcases List.mem_cons.mp he with rfl | he
      · subst hk
        exact Or.inr (Or.inl ⟨vs1, lookupA_cons_eq _ _ _ _ rfl, rfl⟩)
      · exact Or.inl (List.mem_cons_of_mem _ he)
    · rw [addAssoc_cons_ne _ _ _ _ _ hk] at he
      rcases List.mem_cons.mp he with rfl | he
      · exact Or.inl (List.mem_cons_self _ _)
      · rcases ih e he with h1 | ⟨vs, hvs, he2⟩ | ⟨hn, he2⟩
        · exact Or.inl (List.mem_cons_of_mem _ h1)
        · exact Or.inr (Or.inl ⟨vs, by rw [lookupA_cons_ne _ _ _ _ hk]; exact hvs, he2⟩)
        · exact Or.inr (Or.inr ⟨by rw [lookupA_cons_ne _ _ _ _ hk]; exact hn, he2⟩)

theorem buildHeader_invariant (adds : List (GoStr × GoStr)) :
    ∀ h : Header,
    (∀ p ∈ adds, keyOkB p.1 = true ∧ valOkB p.2 = true) →
    (∀ e ∈ h, (keyOkB e.1 = true ∧ canonicalKey e.1 = e.1) ∧ e.2 ≠ [] ∧
      ∀ v ∈ e.2, valOkB v = true) →
    (h.map Prod.fst).Nodup →
    (∀ e ∈ adds.foldl (fun h p => headerAdd h p.1 p.2) h,
      (keyOkB e.1 = true ∧ canonicalKey e.1 = e.1) ∧ e.2 ≠ [] ∧
        ∀ v ∈ e.2, valOkB v = true) ∧
    ((adds.foldl (fun h p => headerAdd h p.1 p.2) h).map Prod.fst).Nodup := by
  induction adds with
  | nil =>
    intro h _ hgood hnodup
    exact ⟨hgood, hnodup⟩
  | cons p t ih =>
    intro h hok hgood hnodup
    obtain ⟨hkey, hval⟩ := hok p (List.mem_cons_self p t)
    obtain ⟨hck1, hck2⟩ := canonicalKey_keyOk hkey
    rw [List.foldl_cons]
    refine ih (headerAdd h p.1 p.2) (fun x hx => hok x (List.mem_cons_of_mem p hx)) ?_ ?_
    · intro e he
      unfold headerAdd at he
      rcases mem_addAssoc h (canonicalKey p.1) p.2 e he with h1 | ⟨vs, hvs, rfl⟩ | ⟨hn, rfl⟩
      · exact hgood e h1
      · have hmem := lookupA_some_mem h (canonicalKey p.1) vs hvs
        obtain ⟨hk0, hne0, hv0⟩ := hgood _ hmem
        refine ⟨hk0, ?_, ?_⟩
        · intro hc
          rcases List.append_eq_nil.mp hc with ⟨_, h2⟩
          exact List.cons_ne_nil _ _ h2
        · intro v hv
          rcases List.mem_append.mp hv with hv | hv
          · exact hv0 v hv
          · rcases List.mem_singleton.mp hv with rfl
            exact hval
      · exact ⟨⟨hck1, hck2⟩, List.cons_ne_nil _ _, fun v hv => by
          rcases List.mem_singleton.mp hv with rfl
          exact hval⟩
    · unfold headerAdd
      cases hl : lookupA h (canonicalKey p.1) with
      | some vs =>
        rw [keys_addAssoc_some h (canonicalKey p.1) p.2 vs hl]
        exact hnodup
      | none =>
        rw [addAssoc_fresh h (canonicalKey p.1) p.2 hl, List.map_append, List.map_cons,
          List.map_nil]
        rw [List.nodup_append]
        refine ⟨hnodup, List.nodup_singleton _, ?_⟩
        intro x hx hmem
        rcases List.mem_singleton.mp hmem with rfl
        exact (lookupA_eq_none_iff h (canonicalKey p.1)).mp hl hx

/-- Claim C5: a header block built by `Add` keeps every value for a
key in insertion order, `Get` returns the first value (and the empty
string with `false` when the key is absent), and serialising with
`Write` then re-parsing the lines as a MIME header block reproduces the
block, for keys that are header tokens and values free of CR/LF and
surrounding whitespace. -/
theorem gntp_c5 (adds : List (GoStr × GoStr))
    (hok : ∀ p ∈ adds, keyOkB p.1 = true ∧ valOkB p.2 = true) :
    (∀ k : GoStr, valsOf (buildHeader adds) (canonicalKey k) =
      (adds.filter (fun p => canonicalKey p.1 = canonicalKey k)).map Prod.snd) ∧
    (∀ k : GoStr, headerGet (buildHeader adds) k =
      (match adds.filter (fun p => canonicalKey p.1 = canonicalKey k) with
       | [] => ([], false)
       | p :: _ => (p.2, true))) ∧
    mimeReadHeader (writeHeader (buildHeader adds) ++ '\r' :: '\n' :: []) =
      .ok (buildHeader adds, []) := by
  have hfold := lookupA_fold adds
  refine ⟨?_, ?_, ?_⟩
  · intro k
    unfold valsOf buildHeader
    rw [hfold [] (canonicalKey k),
      show lookupA [] (canonicalKey k) = (none : Option (List GoStr)) from rfl]
    dsimp only
    by_cases hm : (adds.filter
        (fun p => canonicalKey p.1 = canonicalKey k)).map Prod.snd = []
    · rw [if_pos hm, hm]
      rfl
    · rw [if_neg hm]
      rfl
  · intro k
    unfold headerGet buildHeader
    rw [hfold [] (canonicalKey k),
      show lookupA [] (canonicalKey k) = (none : Option (List GoStr)) from rfl]
    dsimp only
    cases hf : adds.filter (fun p => canonicalKey p.1 = canonicalKey k) with
    | nil =>
      rw [List.map_nil, if_pos rfl]
    | cons p ps =>
      rw [List.map_cons, if_neg (List.cons_ne_nil _ _)]
      rfl
  · obtain ⟨hgood, hnodup⟩ := buildHeader_invariant adds [] hok
      (fun e he => absurd he (List.not_mem_nil e)) List.nodup_nil
    unfold mimeReadHeader
    rw [mime_write (buildHeader adds) [] hgood
      (fun e _ => rfl) hnodup, List.nil_append]

theorem gntp_c5_w :
    valsOf (buildHeader addsEx) (canonicalKey "x-key".toList) =
      ["v1".toList, "v2".toList] ∧
    headerGet (buildHeader addsEx) "X-KEY".toList = ("v1".toList, true) ∧
    headerGet (buildHeader addsEx) "Missing".toList = ([], false) ∧
    mimeReadHeader (writeHeader (buildHeader addsEx) ++ '\r' :: '\n' :: []) =
      .ok (buildHeader addsEx, []) := by
  have h := gntp_c5 addsEx (by decide)
  refine ⟨?_, ?_, ?_, h.2.2⟩
  · rw [h.1 "x-key".toList]
    decide
  · rw [h.2.1 "X-KEY".toList]
    decide
  · rw [h.2.1 "Missing".toList]
    decide

end Gntp
